import Mathlib

/-!
# Verification of the BottomBar fixed-height terminal region renderer

Shallow embedding of `src/BottomBar.py`.  Each Python method is modelled as a
function producing the list of output events it performs (writes to stdout in
statement order, or an assertion failure), from which the emitted string is
derived.  A small ANSI command parser and cursor interpreter (following the
escape-sequence table of the specification: newline, cursor up `ESC[nA`,
cursor down `ESC[nB`, line insert `ESC[nL`, clear line `ESC[2K`, start of
line `ESC[E`) is used to reason about cursor and region positions.
-/

/-- Decimal digit character for a value below ten (as produced by the host
language's integer formatting). -/
def digitChar (d : Nat) : Char :=
  if d = 0 then '0'
  else if d = 1 then '1'
  else if d = 2 then '2'
  else if d = 3 then '3'
  else if d = 4 then '4'
  else if d = 5 then '5'
  else if d = 6 then '6'
  else if d = 7 then '7'
  else if d = 8 then '8'
  else '9'

/-- Fuel-driven base-ten digit expansion, most significant digit first. -/
def natDigitsAux : Nat → Nat → List Char
  | 0, _ => []
  | fuel + 1, m =>
    if m < 10 then [digitChar m]
    else natDigitsAux fuel (m / 10) ++ [digitChar (m % 10)]

/-- The decimal digit characters of a natural number. -/
def natChars (m : Nat) : List Char := natDigitsAux (m + 1) m

/-- Decimal rendering of a natural number, as the host language's string
interpolation of a nonnegative integer produces it. -/
def natToString (m : Nat) : String := String.mk (natChars m)

/-- Decimal rendering of an integer, as the host language's string
interpolation produces it. -/
def intToString (i : Int) : String :=
  if 0 ≤ i then natToString i.toNat else "-" ++ natToString (-i).toNat

/-- A string of `k` newline characters (the host language's `"\n" * k`). -/
def nlRepeat (k : Nat) : String := String.mk (List.replicate k '\n')

/-- One observable action of an operation: a write to the output stream, or
an assertion failure carrying its message. -/
inductive Event where
  | emit : String → Event
  | fail : String → Event
deriving DecidableEq

/-- Whether a trace contains an assertion failure. -/
def hasFailure : List Event → Bool
  | [] => false
  | Event.emit _ :: rest => hasFailure rest
  | Event.fail _ :: _ => true

/-- All characters written to the output stream strictly before the first
failure (everything, when no failure occurs). -/
def emittedBeforeFailure : List Event → String
  | [] => ""
  | Event.emit s :: rest => s ++ emittedBeforeFailure rest
  | Event.fail _ :: _ => ""

/-- Collapse a trace into the familiar result type: the concatenated output
on success, the first assertion message on failure. -/
def runEvents : List Event → Except String String
  | [] => Except.ok ""
  | Event.emit s :: rest =>
    match runEvents rest with
    | Except.ok t => Except.ok (s ++ t)
    | Except.error m => Except.error m
  | Event.fail m :: _ => Except.error m

/-- The renderer's only state: the configured region height
(`self._bar_height` in the source). -/
structure BottomBar where
  bar_height : Int
deriving DecidableEq

namespace BottomBar

/-- Trace of `BottomBar.__init__`: the `assert bar_height > 0` check; no
output is produced in either case. -/
def construct_events (bar_height : Int) : List Event :=
  if 0 < bar_height then [] else [Event.fail "bar_height must be positive"]

/-- `BottomBar.__init__` as a fallible constructor: stores the height when it
is positive, fails otherwise. -/
def construct (bar_height : Int) : Except String BottomBar :=
  if 0 < bar_height then Except.ok ⟨bar_height⟩
  else Except.error "bar_height must be positive"

/-- Trace of `BottomBar.init`: `bar_height - 1` bare `print()` calls (each a
single newline) followed by `print("", end='')` (an empty write). -/
def init_events (b : BottomBar) : List Event :=
  List.replicate (b.bar_height - 1).toNat (Event.emit "\n") ++ [Event.emit ""]

/-- Everything `BottomBar.init` writes to the output stream. -/
def init_output (b : BottomBar) : String := emittedBeforeFailure b.init_events

/-- Trace of `BottomBar.print`: the reserved-`end` assertion, then a single
`print(payload_str, end='')` of the assembled control sequence.  The keyword
arguments are abstracted by whether they contain the reserved `end` key. -/
def print_events (b : BottomBar) (content_str : String) (kwargs_has_end : Bool) :
    List Event :=
  if kwargs_has_end then [Event.fail "end parameter is reserved and cannot be used."]
  else
    let n : Int := (content_str.data.count '\n' : Int) + 1
    let str_manip_start :=
      nlRepeat (content_str.data.count '\n' + 1) ++
      ("\x1b[" ++ intToString (b.bar_height + n - 1) ++ "A") ++
      ("\x1b[" ++ intToString n ++ "L")
    let str_manip_end := ("\x1b[" ++ intToString b.bar_height ++ "B") ++ "\x1b[E"
    [Event.emit (str_manip_start ++ content_str ++ str_manip_end)]

/-- `BottomBar.print` as output string or assertion message. -/
def print (b : BottomBar) (content_str : String) (kwargs_has_end : Bool) :
    Except String String :=
  runEvents (b.print_events content_str kwargs_has_end)

/-- Trace of `BottomBar.print_bar_line`: the row-range assertion, the
single-line assertion, then one write of either the last-row payload or the
general payload. -/
def print_bar_line_events (b : BottomBar) (y : Int) (content_str : String) :
    List Event :=
  if 0 ≤ y ∧ y < b.bar_height then
    if '\n' ∈ content_str.data then
      [Event.fail "content_str must be a single line without new lines"]
    else if y = b.bar_height - 1 then
      [Event.emit ("\x1b[2K" ++ content_str ++ "\x1b[E")]
    else
      [Event.emit (("\x1b[" ++ intToString (b.bar_height - y - 1) ++ "A") ++
        "\x1b[2K" ++ content_str ++
        ("\x1b[" ++ intToString (b.bar_height - y - 1) ++ "B") ++ "\x1b[E")]
  else [Event.fail "y must be within the print bar height"]

/-- `BottomBar.print_bar_line` as output string or assertion message. -/
def print_bar_line (b : BottomBar) (y : Int) (content_str : String) :
    Except String String :=
  runEvents (b.print_bar_line_events y content_str)

/-- Trace of `BottomBar.print_final_line`: one `print("", end='\n')`, a
single newline. -/
def print_final_line_events (_b : BottomBar) : List Event := [Event.emit "\n"]

/-- Everything `BottomBar.print_final_line` writes to the output stream. -/
def print_final_line_output (b : BottomBar) : String :=
  emittedBeforeFailure b.print_final_line_events

/-- Modelled from the spec: the variadic call shape of the print-above
operation (`print_line`, called by `src/example.py` but absent from
`src/BottomBar.py`).  Per the spec it takes variadic display arguments,
joins them with the output routine's default separator (a single space), and
is otherwise functionally identical to the single-string shape. -/
def print_line_events (b : BottomBar) (args : List String) (kwargs_has_end : Bool) :
    List Event :=
  let content_str := String.intercalate " " args
  if kwargs_has_end then [Event.fail "end parameter is reserved and cannot be used."]
  else
    let n : Int := (content_str.data.count '\n' : Int) + 1
    let str_manip_start :=
      nlRepeat (content_str.data.count '\n' + 1) ++
      ("\x1b[" ++ intToString (b.bar_height + n - 1) ++ "A") ++
      ("\x1b[" ++ intToString n ++ "L")
    let str_manip_end := ("\x1b[" ++ intToString b.bar_height ++ "B") ++ "\x1b[E"
    [Event.emit (str_manip_start ++ content_str ++ str_manip_end)]

/-- Modelled from the spec: result of the variadic call shape. -/
def print_line (b : BottomBar) (args : List String) (kwargs_has_end : Bool) :
    Except String String :=
  runEvents (b.print_line_events args kwargs_has_end)

end BottomBar

/-- Whether an operation result is an assertion failure. -/
def isErr : Except String String → Bool
  | Except.error _ => true
  | Except.ok _ => false

/-- Parsed ANSI commands relevant to the renderer, per the specification's
escape-sequence table. -/
inductive Cmd where
  | up : Nat → Cmd
  | down : Nat → Cmd
  | insertL : Nat → Cmd
  | clear : Cmd
  | nextl : Cmd
  | nl : Cmd
  | other : Cmd
deriving DecidableEq

/-- Scanner mode: ordinary text, just after an escape character, or inside a
control sequence accumulating its decimal parameter. -/
inductive Mode where
  | norm : Mode
  | esc : Mode
  | csi : Nat → Mode
deriving DecidableEq

/-- Tokenize a character stream into ANSI commands.  Ordinary characters
become `nl` or `other`; `ESC [ digits X` becomes the command named by the
final letter `X` with the accumulated decimal parameter. -/
def cmdsM : Mode → List Char → List Cmd
  | _, [] => []
  | Mode.norm, c :: cs =>
    if c = '\x1b' then cmdsM Mode.esc cs
    else if c = '\n' then Cmd.nl :: cmdsM Mode.norm cs
    else Cmd.other :: cmdsM Mode.norm cs
  | Mode.esc, c :: cs =>
    if c = '[' then cmdsM (Mode.csi 0) cs
    else Cmd.other :: cmdsM Mode.norm cs
  | Mode.csi acc, c :: cs =>
    if c.isDigit then cmdsM (Mode.csi (acc * 10 + (c.toNat - 48))) cs
    else if c = 'A' then Cmd.up acc :: cmdsM Mode.norm cs
    else if c = 'B' then Cmd.down acc :: cmdsM Mode.norm cs
    else if c = 'L' then Cmd.insertL acc :: cmdsM Mode.norm cs
    else if c = 'K' then Cmd.clear :: cmdsM Mode.norm cs
    else if c = 'E' then Cmd.nextl :: cmdsM Mode.norm cs
    else Cmd.other :: cmdsM Mode.norm cs

/-- The ANSI commands of a string. -/
def ansiCmds (s : String) : List Cmd := cmdsM Mode.norm s.data

/-- Cursor row and region top row, both as absolute line numbers in the
terminal buffer (larger is further down). -/
structure TermState where
  cursor : Int
  regionTop : Int
deriving DecidableEq

/-- Standard ANSI semantics of one command on the vertical geometry: a
newline moves the cursor down one row, `up`/`down` move it by their
parameter, and a line insert pushes every row at or below the cursor down,
so it shifts the region exactly when the region top is at or below the
cursor.  Clear-line and start-of-line do not move vertically. -/
def applyCmd (st : TermState) : Cmd → TermState
  | Cmd.nl => ⟨st.cursor + 1, st.regionTop⟩
  | Cmd.up n => ⟨st.cursor - (n : Int), st.regionTop⟩
  | Cmd.down n => ⟨st.cursor + (n : Int), st.regionTop⟩
  | Cmd.insertL n =>
    ⟨st.cursor, if st.cursor ≤ st.regionTop then st.regionTop + (n : Int) else st.regionTop⟩
  | Cmd.clear => st
  | Cmd.nextl => st
  | Cmd.other => st

/-- Run a string's ANSI commands on a terminal state. -/
def runAnsi (st : TermState) (s : String) : TermState :=
  (ansiCmds s).foldl applyCmd st

/-- Total number of lines inserted by the line-insert commands of a command
list. -/
def insertedLines : List Cmd → Nat
  | [] => 0
  | Cmd.insertL n :: rest => n + insertedLines rest
  | _ :: rest => insertedLines rest

/-- Number of vertical cursor-movement commands (cursor-up or cursor-down)
in a command list. -/
def vertMoves : List Cmd → Nat
  | [] => 0
  | Cmd.up _ :: rest => 1 + vertMoves rest
  | Cmd.down _ :: rest => 1 + vertMoves rest
  | _ :: rest => vertMoves rest

/-- The command a plain (non-escape) character tokenizes to. -/
def plainCmd (c : Char) : Cmd := if c = '\n' then Cmd.nl else Cmd.other

/-! ## String and digit lemmas -/

theorem strData_append (a b : String) : (a ++ b).data = a.data ++ b.data := rfl

theorem strExt (a b : String) (h : a.data = b.data) : a = b := by
  cases a
  cases b
  exact congrArg String.mk h

theorem str_append_empty (s : String) : s ++ "" = s := by
  apply strExt; simp [strData_append]

theorem digitChar_isDigit (d : Nat) (h : d < 10) : (digitChar d).isDigit = true := by
  interval_cases d <;> decide

theorem digitChar_toNat (d : Nat) (h : d < 10) : (digitChar d).toNat - 48 = d := by
  interval_cases d <;> decide

theorem digitChar_ne_nl (d : Nat) (h : d < 10) : digitChar d ≠ '\n' := by
  interval_cases d <;> decide

theorem mem_natDigitsAux (fuel : Nat) :
    ∀ (m : Nat) (c : Char), c ∈ natDigitsAux fuel m → ∃ d, d < 10 ∧ c = digitChar d := by
  induction fuel with
  | zero => intro m c hc; simp [natDigitsAux] at hc
  | succ fuel ih =>
    intro m c hc
    unfold natDigitsAux at hc
    by_cases h : m < 10
    · simp [h] at hc
      exact ⟨m, h, hc⟩
    · simp [h, List.mem_append] at hc
      rcases hc with hc | hc
      · exact ih _ _ hc
      · exact ⟨m % 10, Nat.mod_lt _ (by omega), hc⟩

theorem nl_not_mem_natChars (m : Nat) : '\n' ∉ natChars m := by
  intro hmem
  obtain ⟨d, hd, he⟩ := mem_natDigitsAux (m + 1) m '\n' hmem
  exact digitChar_ne_nl d hd he.symm

theorem nl_not_mem_intToString (i : Int) : '\n' ∉ (intToString i).data := by
  unfold intToString
  split
  · exact nl_not_mem_natChars _
  · intro hmem
    rw [strData_append] at hmem
    rcases List.mem_append.mp hmem with hm | hm
    · simp at hm
    · exact nl_not_mem_natChars _ hm

theorem intToString_nonneg (i : Int) (h : 0 ≤ i) : intToString i = natToString i.toNat :=
  if_pos h

/-! ## Scanner lemmas -/

theorem cmdsM_csi_digits (fuel : Nat) :
    ∀ (m acc : Nat) (tail : List Char), m < fuel →
      cmdsM (Mode.csi acc) (natDigitsAux fuel m ++ tail) =
        cmdsM (Mode.csi (acc * 10 ^ (natDigitsAux fuel m).length + m)) tail := by
  induction fuel with
  | zero => intro m acc tail h; omega
  | succ fuel ih =>
    intro m acc tail h
    by_cases hm : m < 10
    · have h1 := digitChar_isDigit m hm
      have h2 := digitChar_toNat m hm
      simp only [natDigitsAux, if_pos hm, List.cons_append, List.nil_append, cmdsM, h1,
        if_true, h2, List.length_cons, List.length_nil, pow_one, zero_add]
    · have hdiv : m / 10 < fuel := by
        have := Nat.div_lt_self (show 0 < m by omega) (show 1 < 10 by omega)
        omega
      have h1 := digitChar_isDigit (m % 10) (Nat.mod_lt _ (by omega))
      have h2 := digitChar_toNat (m % 10) (Nat.mod_lt _ (by omega))
      simp only [natDigitsAux, if_neg hm, List.append_assoc, List.cons_append,
        List.nil_append]
      rw [ih (m / 10) acc (digitChar (m % 10) :: tail) hdiv]
      simp only [cmdsM, h1, if_true, h2, List.length_append, List.length_cons,
        List.length_nil]
      have harith : (acc * 10 ^ (natDigitsAux fuel (m / 10)).length + m / 10) * 10 + m % 10 =
          acc * 10 ^ ((natDigitsAux fuel (m / 10)).length + (0 + 1)) + m := by
        rw [pow_succ, ← mul_assoc]
        omega
      rw [harith]

theorem cmdsM_csi_natChars (m : Nat) (tail : List Char) :
    cmdsM (Mode.csi 0) (natChars m ++ tail) = cmdsM (Mode.csi m) tail := by
  have h := cmdsM_csi_digits (m + 1) m 0 tail (by omega)
  simpa [natChars] using h

theorem cmdsM_esc_open (l : List Char) :
    cmdsM Mode.norm ('\x1b' :: '[' :: l) = cmdsM (Mode.csi 0) l := by
  simp [cmdsM]

theorem cmdsM_up (m : Nat) (rest : List Char) :
    cmdsM Mode.norm ('\x1b' :: '[' :: (natChars m ++ 'A' :: rest)) =
      Cmd.up m :: cmdsM Mode.norm rest := by
  rw [cmdsM_esc_open, cmdsM_csi_natChars]
  simp [cmdsM]

theorem cmdsM_down (m : Nat) (rest : List Char) :
    cmdsM Mode.norm ('\x1b' :: '[' :: (natChars m ++ 'B' :: rest)) =
      Cmd.down m :: cmdsM Mode.norm rest := by
  rw [cmdsM_esc_open, cmdsM_csi_natChars]
  simp [cmdsM]

theorem cmdsM_insertL (m : Nat) (rest : List Char) :
    cmdsM Mode.norm ('\x1b' :: '[' :: (natChars m ++ 'L' :: rest)) =
      Cmd.insertL m :: cmdsM Mode.norm rest := by
  rw [cmdsM_esc_open, cmdsM_csi_natChars]
  simp [cmdsM]

theorem cmdsM_clear (rest : List Char) :
    cmdsM Mode.norm ('\x1b' :: '[' :: '2' :: 'K' :: rest) =
      Cmd.clear :: cmdsM Mode.norm rest := by
  rw [cmdsM_esc_open]
  simp [cmdsM]

theorem cmdsM_nextl (rest : List Char) :
    cmdsM Mode.norm ('\x1b' :: '[' :: 'E' :: rest) =
      Cmd.nextl :: cmdsM Mode.norm rest := by
  rw [cmdsM_esc_open]
  simp [cmdsM]

theorem cmdsM_norm_append_plain (l1 l2 : List Char) (h : '\x1b' ∉ l1) :
    cmdsM Mode.norm (l1 ++ l2) = l1.map plainCmd ++ cmdsM Mode.norm l2 := by
  induction l1 with
  | nil => simp
  | cons c l1 ih =>
    have hc : c ≠ '\x1b' := fun e => h (e ▸ List.mem_cons_self c l1)
    have h' : '\x1b' ∉ l1 := fun hm => h (List.mem_cons_of_mem _ hm)
    by_cases hnl : c = '\n'
    · subst hnl
      simp [cmdsM, plainCmd, ih h']
    · simp [cmdsM, hc, hnl, plainCmd, ih h']

/-! ## Interpreter lemmas -/

theorem foldl_plain (l : List Char) :
    ∀ c t : Int, (l.map plainCmd).foldl applyCmd ⟨c, t⟩ =
      ⟨c + l.count '\n', t⟩ := by
  induction l with
  | nil => intro c t; simp
  | cons a l ih =>
    intro c t
    by_cases h : a = '\n'
    · subst h
      simp only [List.map_cons, List.foldl_cons, plainCmd, if_pos rfl, applyCmd, ih,
        List.count_cons]
      simp [TermState.mk.injEq]
      omega
    · simp only [List.map_cons, List.foldl_cons, plainCmd, if_neg h, applyCmd, ih,
        List.count_cons]
      simp [TermState.mk.injEq, h]

theorem foldl_replicate_nl (n : Nat) :
    ∀ c t : Int, (List.replicate n Cmd.nl).foldl applyCmd ⟨c, t⟩ = ⟨c + n, t⟩ := by
  induction n with
  | zero => intro c t; simp
  | succ n ih =>
    intro c t
    simp only [List.replicate_succ, List.foldl_cons, applyCmd, ih]
    simp [TermState.mk.injEq]
    omega

theorem map_plainCmd_replicate_nl (n : Nat) :
    (List.replicate n '\n').map plainCmd = List.replicate n Cmd.nl := by
  simp [List.map_replicate, plainCmd]

theorem count_replicate_self (c : Char) (n : Nat) :
    (List.replicate n c).count c = n := by
  induction n with
  | zero => rfl
  | succ n ih => simp [List.replicate_succ, List.count_cons, ih]

/-! ## Counting lemmas for inserted lines and vertical moves -/

theorem insertedLines_append (l1 l2 : List Cmd) :
    insertedLines (l1 ++ l2) = insertedLines l1 + insertedLines l2 := by
  induction l1 with
  | nil => simp [insertedLines]
  | cons c l1 ih => cases c <;> simp [insertedLines, ih] <;> omega

theorem insertedLines_map_plain (l : List Char) :
    insertedLines (l.map plainCmd) = 0 := by
  induction l with
  | nil => rfl
  | cons c l ih =>
    by_cases h : c = '\n' <;> simp [plainCmd, h, insertedLines, ih]

theorem insertedLines_replicate_nl (n : Nat) :
    insertedLines (List.replicate n Cmd.nl) = 0 := by
  induction n with
  | zero => rfl
  | succ n ih => simp [List.replicate_succ, insertedLines, ih]

theorem vertMoves_append (l1 l2 : List Cmd) :
    vertMoves (l1 ++ l2) = vertMoves l1 + vertMoves l2 := by
  induction l1 with
  | nil => simp [vertMoves]
  | cons c l1 ih => cases c <;> simp [vertMoves, ih] <;> omega

theorem vertMoves_map_plain (l : List Char) :
    vertMoves (l.map plainCmd) = 0 := by
  induction l with
  | nil => rfl
  | cons c l ih =>
    by_cases h : c = '\n' <;> simp [plainCmd, h, vertMoves, ih]

/-! ## Small helpers for data decomposition -/

theorem cmdsM_nil (md : Mode) : cmdsM md [] = [] := by cases md <;> rfl

theorem nlRepeat_data (k : Nat) : (nlRepeat k).data = List.replicate k '\n' := rfl

theorem natToString_data (m : Nat) : (natToString m).data = natChars m := rfl

theorem dataEscBracket : "\x1b[".data = ['\x1b', '['] := rfl

theorem dataClear : "\x1b[2K".data = ['\x1b', '[', '2', 'K'] := rfl

theorem dataNextl : "\x1b[E".data = ['\x1b', '[', 'E'] := rfl

theorem dataA : "A".data = ['A'] := rfl

theorem dataB : "B".data = ['B'] := rfl

theorem dataL : "L".data = ['L'] := rfl

theorem barHeight_mk (h : Int) : (⟨h⟩ : BottomBar).bar_height = h := rfl

theorem esc_not_mem_replicate_nl (n : Nat) : '\x1b' ∉ List.replicate n '\n' :=
  fun hm => absurd (List.eq_of_mem_replicate hm) (by decide)

/-! ## Claim theorems -/

/-- C4: construction succeeds exactly when the supplied height is positive,
in which case it stores the value; for non-positive heights it fails with the
invalid-configuration assertion.  In either case the constructor's trace
emits nothing to the output stream. -/
theorem C4_construct_validation (h : Int) :
    (0 < h → BottomBar.construct h = Except.ok ⟨h⟩) ∧
    (h ≤ 0 → BottomBar.construct h = Except.error "bar_height must be positive") ∧
    emittedBeforeFailure (BottomBar.construct_events h) = "" := by
  refine ⟨fun hp => ?_, fun hn => ?_, ?_⟩
  · rw [BottomBar.construct, if_pos hp]
  · rw [BottomBar.construct, if_neg (by omega)]
  · rw [BottomBar.construct_events]
    split <;> rfl

/-- Witness for C4 at heights 2 and 0. -/
theorem C4_construct_validation_witness :
    BottomBar.construct 2 = Except.ok ⟨2⟩ ∧
    BottomBar.construct 0 = Except.error "bar_height must be positive" :=
  ⟨(C4_construct_validation 2).1 (by decide), (C4_construct_validation 0).2.1 (by decide)⟩

/-- C5: for a validly constructed bar, `print_bar_line` fails exactly when
the row index is outside the region or the text contains a line break, and
`print` fails exactly when the reserved `end` keyword override is passed. -/
theorem C5_invalid_argument_iff (h y : Int) (s : String) (e : Bool) (hh : 1 ≤ h) :
    (isErr ((⟨h⟩ : BottomBar).print_bar_line y s) = true ↔
      (¬ (0 ≤ y ∧ y < h) ∨ '\n' ∈ s.data)) ∧
    (isErr ((⟨h⟩ : BottomBar).print s e) = true ↔ e = true) := by
  constructor
  · rw [BottomBar.print_bar_line, BottomBar.print_bar_line_events, barHeight_mk]
    split_ifs with h1 h2 h3
    · simp [runEvents, isErr, h1, h2]
    · simp [runEvents, isErr, h1, h2]
    · simp [runEvents, isErr, h1, h2]
    · simp [runEvents, isErr, h1]
  · rw [BottomBar.print, BottomBar.print_events]
    cases e <;> simp [runEvents, isErr]

/-- Witness for C5 at height 2, out-of-range row 5, text without breaks. -/
theorem C5_invalid_argument_iff_witness :
    (isErr ((⟨2⟩ : BottomBar).print_bar_line 5 "a") = true ↔
      (¬ ((0 : Int) ≤ 5 ∧ (5 : Int) < 2) ∨ '\n' ∈ "a".data)) ∧
    (isErr ((⟨2⟩ : BottomBar).print "a" false) = true ↔ false = true) :=
  C5_invalid_argument_iff 2 5 "a" false (by decide)

/-- C8: whenever an operation's trace contains an assertion failure, no
characters were written before it: the assertions of construction, of
`print` and of `print_bar_line` all precede every write. -/
theorem C8_no_partial_emission (hgt y : Int) (s : String) (e : Bool) (b : BottomBar) :
    (hasFailure (BottomBar.construct_events hgt) = true →
      emittedBeforeFailure (BottomBar.construct_events hgt) = "") ∧
    (hasFailure (b.print_events s e) = true →
      emittedBeforeFailure (b.print_events s e) = "") ∧
    (hasFailure (b.print_bar_line_events y s) = true →
      emittedBeforeFailure (b.print_bar_line_events y s) = "") := by
  refine ⟨?_, ?_, ?_⟩
  · rw [BottomBar.construct_events]
    split <;> simp [hasFailure, emittedBeforeFailure]
  · rw [BottomBar.print_events]
    split <;> simp [hasFailure, emittedBeforeFailure]
  · rw [BottomBar.print_bar_line_events]
    split_ifs <;> simp [hasFailure, emittedBeforeFailure]

/-- Witness for C8 on three failing calls. -/
theorem C8_no_partial_emission_witness :
    emittedBeforeFailure (BottomBar.construct_events 0) = "" ∧
    emittedBeforeFailure ((⟨1⟩ : BottomBar).print_events "x" true) = "" ∧
    emittedBeforeFailure ((⟨1⟩ : BottomBar).print_bar_line_events 5 "x") = "" :=
  ⟨(C8_no_partial_emission 0 5 "x" true ⟨1⟩).1 (by decide),
   (C8_no_partial_emission 0 5 "x" true ⟨1⟩).2.1 (by decide),
   (C8_no_partial_emission 0 5 "x" true ⟨1⟩).2.2 (by decide)⟩

/-- C9: the variadic call shape (arguments joined by the output routine's
default separator, a single space) produces exactly the result and the trace
of the single-string shape applied to the joined text. -/
theorem C9_variadic_equiv (b : BottomBar) (args : List String) (e : Bool) :
    b.print_line args e = b.print (String.intercalate " " args) e ∧
    b.print_line_events args e = b.print_events (String.intercalate " " args) e :=
  ⟨rfl, rfl⟩

theorem emittedBeforeFailure_replicate_nl (k : Nat) :
    (emittedBeforeFailure (List.replicate k (Event.emit "\n") ++ [Event.emit ""])).data =
      List.replicate k '\n' := by
  induction k with
  | zero => rfl
  | succ k ih =>
    simp only [List.replicate_succ, List.cons_append, emittedBeforeFailure, List.append_eq]
    rw [strData_append, ih]
    rfl

theorem init_output_data (b : BottomBar) :
    b.init_output.data = List.replicate (b.bar_height - 1).toNat '\n' := by
  rw [BottomBar.init_output, BottomBar.init_events]
  exact emittedBeforeFailure_replicate_nl _

theorem final_output_data (b : BottomBar) : b.print_final_line_output.data = ['\n'] := rfl

/-- C3 counterexample: at height 3, initialize followed by finalize emits
exactly 3 newline characters, not `height + 1 = 4` as the claim states
(initialize writes `height - 1` newlines, the last reserved row being
established without a trailing newline, and finalize writes one more). -/
theorem C3_counterexample_height3 :
    ¬ ((((⟨3⟩ : BottomBar).init_output ++
        (⟨3⟩ : BottomBar).print_final_line_output).data.count '\n') = 3 + 1) := by
  decide

/-- C3 amended: for every height `h ≥ 1`, constructing, initializing and
immediately finalizing emits exactly `h` newline characters in total, and
advances the cursor by exactly `h` rows net.  Since initialize starting at
row `c` places the region on rows `c` through `c + h - 1` (its bottom at
`c + h - 1`), the final cursor `c + h` is exactly one row below the region's
bottom. -/
theorem C3_init_finalize_net_advance (h : Int) (hh : 1 ≤ h) :
    ((((⟨h⟩ : BottomBar).init_output ++
        (⟨h⟩ : BottomBar).print_final_line_output).data.count '\n' : Int) = h) ∧
    ∀ c t : Int,
      runAnsi ⟨c, t⟩ ((⟨h⟩ : BottomBar).init_output ++
        (⟨h⟩ : BottomBar).print_final_line_output) = ⟨c + h, t⟩ := by
  have hdata : ((⟨h⟩ : BottomBar).init_output ++
      (⟨h⟩ : BottomBar).print_final_line_output).data =
      List.replicate ((h - 1).toNat + 1) '\n' := by
    rw [strData_append, init_output_data, final_output_data, barHeight_mk,
      ← List.replicate_succ']
  constructor
  · rw [hdata, count_replicate_self]
    omega
  · intro c t
    rw [runAnsi, ansiCmds, hdata]
    have hplain := cmdsM_norm_append_plain (List.replicate ((h - 1).toNat + 1) '\n') []
      (esc_not_mem_replicate_nl _)
    rw [List.append_nil] at hplain
    rw [hplain, cmdsM_nil, List.append_nil, map_plainCmd_replicate_nl, foldl_replicate_nl]
    have : ((((h - 1).toNat + 1 : Nat)) : Int) = h := by omega
    rw [this]

/-- Witness for the amended C3 at height 2. -/
theorem C3_init_finalize_net_advance_witness :
    ((((⟨2⟩ : BottomBar).init_output ++
        (⟨2⟩ : BottomBar).print_final_line_output).data.count '\n' : Int) = 2) ∧
    runAnsi ⟨0, 5⟩ ((⟨2⟩ : BottomBar).init_output ++
      (⟨2⟩ : BottomBar).print_final_line_output) = ⟨0 + 2, 5⟩ :=
  ⟨(C3_init_finalize_net_advance 2 (by decide)).1,
   (C3_init_finalize_net_advance 2 (by decide)).2 0 5⟩

/-- C10: whatever a successful `print_bar_line` call emits contains no
newline character, in both the last-row and the general branch, so a region
rewrite never advances the terminal buffer or causes scrolling. -/
theorem C10_rewrite_emits_no_newline (h y : Int) (s : String) (out : String)
    (hh : 1 ≤ h) (hy0 : 0 ≤ y) (hyh : y < h)
    (hok : (⟨h⟩ : BottomBar).print_bar_line y s = Except.ok out) :
    '\n' ∉ out.data := by
  rw [BottomBar.print_bar_line, BottomBar.print_bar_line_events, barHeight_mk] at hok
  split_ifs at hok with h1 h2 h3
  · simp [runEvents] at hok
  · simp only [runEvents, str_append_empty, Except.ok.injEq] at hok
    subst hok
    intro hmem
    simp only [strData_append, List.append_assoc, List.mem_append] at hmem
    rcases hmem with hm | hm | hm
    · exact absurd hm (by decide)
    · exact h2 hm
    · exact absurd hm (by decide)
  · simp only [runEvents, str_append_empty, Except.ok.injEq] at hok
    subst hok
    intro hmem
    simp only [strData_append, List.append_assoc, List.mem_append] at hmem
    rcases hmem with hm | hm | hm | hm | hm | hm | hm | hm | hm
    · exact absurd hm (by decide)
    · exact nl_not_mem_intToString _ hm
    · exact absurd hm (by decide)
    · exact absurd hm (by decide)
    · exact h2 hm
    · exact absurd hm (by decide)
    · exact nl_not_mem_intToString _ hm
    · exact absurd hm (by decide)
    · exact absurd hm (by decide)
  · exact absurd ⟨hy0, hyh⟩ h1

/-- Witness for C10: height 2, row 0, text without breaks. -/
theorem C10_rewrite_emits_no_newline_witness :
    '\n' ∉ ("\x1b[1A\x1b[2Kx\x1b[1B\x1b[E" : String).data :=
  C10_rewrite_emits_no_newline 2 0 "x" "\x1b[1A\x1b[2Kx\x1b[1B\x1b[E"
    (by decide) (by decide) (by decide) rfl

/-- C7: rewriting the last row of the region (`y = height - 1`) emits the
clear-line sequence, the text and the start-of-line sequence, with no
vertical cursor movement: for display text (no embedded escape character)
the emitted string parses to no cursor-up and no cursor-down command. -/
theorem C7_last_row_rewrite (h : Int) (s : String) (hh : 1 ≤ h) (hnl : '\n' ∉ s.data) :
    (⟨h⟩ : BottomBar).print_bar_line (h - 1) s =
      Except.ok ("\x1b[2K" ++ s ++ "\x1b[E") ∧
    ('\x1b' ∉ s.data →
      vertMoves (ansiCmds ("\x1b[2K" ++ s ++ "\x1b[E")) = 0) := by
  constructor
  · rw [BottomBar.print_bar_line, BottomBar.print_bar_line_events, barHeight_mk,
      if_pos (by omega : (0 : Int) ≤ h - 1 ∧ h - 1 < h), if_neg hnl, if_pos rfl]
    simp [runEvents, str_append_empty]
  · intro hesc
    have hdata : ("\x1b[2K" ++ s ++ "\x1b[E").data =
        '\x1b' :: '[' :: '2' :: 'K' :: (s.data ++ ['\x1b', '[', 'E']) := by
      simp [strData_append, dataClear, dataNextl, List.append_assoc]
    rw [ansiCmds, hdata, cmdsM_clear, cmdsM_norm_append_plain _ _ hesc]
    have hE : cmdsM Mode.norm ['\x1b', '[', 'E'] = [Cmd.nextl] := by
      rw [show (['\x1b', '[', 'E'] : List Char) = '\x1b' :: '[' :: 'E' :: [] from rfl,
        cmdsM_nextl, cmdsM_nil]
    rw [hE]
    simp [vertMoves, vertMoves_append, vertMoves_map_plain]

/-- Witness for C7 at height 3, text `X`. -/
theorem C7_last_row_rewrite_witness :
    (⟨3⟩ : BottomBar).print_bar_line (3 - 1) "X" =
      Except.ok ("\x1b[2K" ++ "X" ++ "\x1b[E") ∧
    vertMoves (ansiCmds ("\x1b[2K" ++ "X" ++ "\x1b[E")) = 0 :=
  ⟨(C7_last_row_rewrite 3 "X" (by decide) (by decide)).1,
   (C7_last_row_rewrite 3 "X" (by decide) (by decide)).2 (by decide)⟩

/-- C6: rewriting a non-last row `y` (so `0 ≤ y ≤ height - 2`) emits exactly
cursor-up by `height - y - 1`, clear-line, the text, cursor-down by
`height - y - 1`, and start-of-line; for display text (no embedded escape
character) the emitted sequence has net vertical displacement zero: it
returns any cursor position, and the region, to exactly where they were. -/
theorem C6_general_row_rewrite (h y : Int) (s : String) (hh : 1 ≤ h) (hy0 : 0 ≤ y)
    (hy2 : y ≤ h - 2) (hnl : '\n' ∉ s.data) :
    (⟨h⟩ : BottomBar).print_bar_line y s =
      Except.ok (("\x1b[" ++ intToString (h - y - 1) ++ "A") ++ "\x1b[2K" ++ s ++
        ("\x1b[" ++ intToString (h - y - 1) ++ "B") ++ "\x1b[E") ∧
    ('\x1b' ∉ s.data → ∀ c t : Int,
      runAnsi ⟨c, t⟩ (("\x1b[" ++ intToString (h - y - 1) ++ "A") ++ "\x1b[2K" ++ s ++
        ("\x1b[" ++ intToString (h - y - 1) ++ "B") ++ "\x1b[E") = ⟨c, t⟩) := by
  constructor
  · rw [BottomBar.print_bar_line, BottomBar.print_bar_line_events, barHeight_mk,
      if_pos (show (0 : Int) ≤ y ∧ y < h by omega), if_neg hnl,
      if_neg (show ¬ y = h - 1 by omega)]
    simp [runEvents, str_append_empty]
  · intro hesc c t
    rw [intToString_nonneg _ (show (0 : Int) ≤ h - y - 1 by omega)]
    have hdata : (("\x1b[" ++ natToString (h - y - 1).toNat ++ "A") ++ "\x1b[2K" ++ s ++
        ("\x1b[" ++ natToString (h - y - 1).toNat ++ "B") ++ "\x1b[E").data =
        '\x1b' :: '[' :: (natChars (h - y - 1).toNat ++ 'A' ::
          ('\x1b' :: '[' :: '2' :: 'K' :: (s.data ++ '\x1b' :: '[' ::
            (natChars (h - y - 1).toNat ++ 'B' :: ('\x1b' :: '[' :: 'E' :: []))))) := by
      simp [strData_append, dataEscBracket, dataClear, dataNextl, dataA, dataB,
        natToString_data, List.append_assoc]
    rw [runAnsi, ansiCmds, hdata, cmdsM_up, cmdsM_clear,
      cmdsM_norm_append_plain _ _ hesc, cmdsM_down, cmdsM_nextl, cmdsM_nil]
    simp only [List.foldl_cons, applyCmd]
    rw [List.foldl_append, foldl_plain]
    simp only [List.foldl_cons, applyCmd, List.foldl_nil]
    rw [List.count_eq_zero.mpr hnl]
    simp only [TermState.mk.injEq]
    exact ⟨by omega, trivial⟩

/-- Witness for C6 at height 3, row 0, text `X`, cursor 5, region top 9. -/
theorem C6_general_row_rewrite_witness :
    (⟨3⟩ : BottomBar).print_bar_line 0 "X" =
      Except.ok (("\x1b[" ++ intToString (3 - 0 - 1) ++ "A") ++ "\x1b[2K" ++ "X" ++
        ("\x1b[" ++ intToString (3 - 0 - 1) ++ "B") ++ "\x1b[E") ∧
    runAnsi ⟨5, 9⟩ (("\x1b[" ++ intToString (3 - 0 - 1) ++ "A") ++ "\x1b[2K" ++ "X" ++
      ("\x1b[" ++ intToString (3 - 0 - 1) ++ "B") ++ "\x1b[E") = ⟨5, 9⟩ :=
  ⟨(C6_general_row_rewrite 3 0 "X" (by decide) (by decide) (by decide) (by decide)).1,
   (C6_general_row_rewrite 3 0 "X" (by decide) (by decide) (by decide) (by decide)).2
     (by decide) 5 9⟩

/-- C1: for a text with `k` embedded line breaks (`n = k + 1` visual lines),
`print` performs exactly one contiguous write, consisting of `n` newlines,
cursor-up by `height + n - 1` (past the `height - 1` region rows above the
resting row plus the `n` fresh lines), line-insert of `n` lines, the text,
cursor-down by `height`, and start-of-line — in that order and nothing
else. -/
theorem C1_print_above_sequence (h : Int) (hh : 1 ≤ h) (s : String) :
    (⟨h⟩ : BottomBar).print_events s false =
      [Event.emit (nlRepeat (s.data.count '\n' + 1) ++
        "\x1b[" ++ intToString (h + ((s.data.count '\n' : Int) + 1) - 1) ++ "A" ++
        "\x1b[" ++ intToString ((s.data.count '\n' : Int) + 1) ++ "L" ++
        s ++ "\x1b[" ++ intToString h ++ "B" ++ "\x1b[E")] := by
  show [Event.emit (nlRepeat (s.data.count '\n' + 1) ++
      ("\x1b[" ++ intToString (h + ((s.data.count '\n' : Int) + 1) - 1) ++ "A") ++
      ("\x1b[" ++ intToString ((s.data.count '\n' : Int) + 1) ++ "L") ++ s ++
      (("\x1b[" ++ intToString h ++ "B") ++ "\x1b[E"))] = _
  refine congrArg (fun p => [Event.emit p]) ?_
  apply strExt
  simp [strData_append, List.append_assoc]

/-- Witness for C1 at height 2, text with one line break. -/
theorem C1_print_above_sequence_witness :
    (⟨2⟩ : BottomBar).print_events "a\nb" false =
      [Event.emit (nlRepeat (("a\nb" : String).data.count '\n' + 1) ++
        "\x1b[" ++ intToString (2 + ((("a\nb" : String).data.count '\n' : Int) + 1) - 1) ++ "A" ++
        "\x1b[" ++ intToString ((("a\nb" : String).data.count '\n' : Int) + 1) ++ "L" ++
        "a\nb" ++ "\x1b[" ++ intToString 2 ++ "B" ++ "\x1b[E")] :=
  C1_print_above_sequence 2 (by decide) "a\nb"

/-- C2: for display text (no embedded escape character) with `k` embedded
line breaks, a successful `print` call emits a sequence whose line-insert
commands insert exactly `k + 1` lines, and which — interpreted under the
ANSI semantics of newline, cursor-up, cursor-down and line-insert — pushes
the region top down by exactly `k + 1` rows (the `k + 1` fresh lines appear
above the region) while moving the cursor from the resting row, `height - 1`
rows below the region top, to exactly `height - 1` rows below the new region
top: the resting position relative to the region is unchanged. -/
theorem C2_insert_count_and_resting_position (h : Int) (s : String) (hh : 1 ≤ h)
    (hesc : '\x1b' ∉ s.data) (out : String)
    (hok : (⟨h⟩ : BottomBar).print s false = Except.ok out) :
    insertedLines (ansiCmds out) = s.data.count '\n' + 1 ∧
    ∀ t : Int, runAnsi ⟨t + (h - 1), t⟩ out =
      ⟨t + ((s.data.count '\n' : Int) + 1) + (h - 1),
       t + ((s.data.count '\n' : Int) + 1)⟩ := by
  have h1 : (⟨h⟩ : BottomBar).print s false = Except.ok
      ((nlRepeat (s.data.count '\n' + 1) ++
        ("\x1b[" ++ intToString (h + ((s.data.count '\n' : Int) + 1) - 1) ++ "A") ++
        ("\x1b[" ++ intToString ((s.data.count '\n' : Int) + 1) ++ "L") ++ s ++
        (("\x1b[" ++ intToString h ++ "B") ++ "\x1b[E")) ++ "") := rfl
  rw [str_append_empty] at h1
  rw [h1] at hok
  have hout : out = nlRepeat (s.data.count '\n' + 1) ++
      ("\x1b[" ++ intToString (h + ((s.data.count '\n' : Int) + 1) - 1) ++ "A") ++
      ("\x1b[" ++ intToString ((s.data.count '\n' : Int) + 1) ++ "L") ++ s ++
      (("\x1b[" ++ intToString h ++ "B") ++ "\x1b[E") := (Except.ok.inj hok).symm
  subst hout
  set k := s.data.count '\n' with hk
  rw [intToString_nonneg (h + ((k : Int) + 1) - 1) (by omega),
    intToString_nonneg ((k : Int) + 1) (by omega),
    intToString_nonneg h (by omega)]
  have hdata : (nlRepeat (k + 1) ++
      ("\x1b[" ++ natToString (h + ((k : Int) + 1) - 1).toNat ++ "A") ++
      ("\x1b[" ++ natToString ((k : Int) + 1).toNat ++ "L") ++ s ++
      (("\x1b[" ++ natToString h.toNat ++ "B") ++ "\x1b[E")).data =
      List.replicate (k + 1) '\n' ++
        ('\x1b' :: '[' :: (natChars (h + ((k : Int) + 1) - 1).toNat ++ 'A' ::
          ('\x1b' :: '[' :: (natChars ((k : Int) + 1).toNat ++ 'L' ::
            (s.data ++ '\x1b' :: '[' :: (natChars h.toNat ++ 'B' ::
              ('\x1b' :: '[' :: 'E' :: []))))))) := by
    simp [strData_append, dataEscBracket, dataA, dataB, dataL, dataNextl,
      natToString_data, nlRepeat_data, List.append_assoc]
  have hcmds : cmdsM Mode.norm ((nlRepeat (k + 1) ++
      ("\x1b[" ++ natToString (h + ((k : Int) + 1) - 1).toNat ++ "A") ++
      ("\x1b[" ++ natToString ((k : Int) + 1).toNat ++ "L") ++ s ++
      (("\x1b[" ++ natToString h.toNat ++ "B") ++ "\x1b[E")).data) =
      List.replicate (k + 1) Cmd.nl ++
        (Cmd.up (h + ((k : Int) + 1) - 1).toNat :: Cmd.insertL ((k : Int) + 1).toNat ::
          (s.data.map plainCmd ++ Cmd.down h.toNat :: Cmd.nextl :: [])) := by
    rw [hdata, cmdsM_norm_append_plain _ _ (esc_not_mem_replicate_nl _),
      map_plainCmd_replicate_nl, cmdsM_up, cmdsM_insertL,
      cmdsM_norm_append_plain _ _ hesc, cmdsM_down, cmdsM_nextl, cmdsM_nil]
  constructor
  · rw [ansiCmds, hcmds]
    simp [insertedLines, insertedLines_append, insertedLines_replicate_nl,
      insertedLines_map_plain]
  · intro t
    rw [runAnsi, ansiCmds, hcmds]
    rw [List.foldl_append, foldl_replicate_nl]
    simp only [List.foldl_cons, applyCmd]
    rw [List.foldl_append, foldl_plain]
    simp only [List.foldl_cons, applyCmd, List.foldl_nil]
    rw [← hk]
    split_ifs with hins
    · simp only [TermState.mk.injEq]
      constructor <;> omega
    · exfalso
      omega

/-- Witness for C2 at height 2, text with one line break, region top 10. -/
theorem C2_insert_count_and_resting_position_witness :
    insertedLines (ansiCmds "\n\n\x1b[3A\x1b[2La\nb\x1b[2B\x1b[E") =
      ("a\nb" : String).data.count '\n' + 1 ∧
    runAnsi ⟨10 + (2 - 1), 10⟩ "\n\n\x1b[3A\x1b[2La\nb\x1b[2B\x1b[E" =
      ⟨10 + ((("a\nb" : String).data.count '\n' : Int) + 1) + (2 - 1),
       10 + ((("a\nb" : String).data.count '\n' : Int) + 1)⟩ :=
  ⟨(C2_insert_count_and_resting_position 2 "a\nb" (by decide) (by decide)
      "\n\n\x1b[3A\x1b[2La\nb\x1b[2B\x1b[E" rfl).1,
   (C2_insert_count_and_resting_position 2 "a\nb" (by decide) (by decide)
      "\n\n\x1b[3A\x1b[2La\nb\x1b[2B\x1b[E" rfl).2 10⟩
